import Mathlib

/-!
Verification development for the ooz bounded-scalar / XY-vector library.

Raw JavaScript numbers are embedded as rationals (`Rat`). The scalar
coercion layer (the `U16`, `I4`, ... functions and their `ceil` / `floor` /
`round` / `trunc` / `clamp` companions) is not part of the sources at hand,
only its callers are; it is modelled from the specification of the coercion
calculus. The XY vector classes (`U16XY`, `I4XY`) are embedded from their
sources: every mutating method assigns the freshly coerced x component
first and the y component second, and a coercion failure escapes as an
exception, leaving the fields assigned so far in place. That sequential
update is captured by `XYv.assign2`, which returns both the error (if any)
and the state observable after the method returns or throws.
-/

namespace Ooz

/-- Errors reported by the coercion calculus: a range / non-integral
violation from Cast, and the distinct division-by-zero failure. -/
inductive CoerceErr where
  | range
  | divByZero
deriving DecidableEq, Repr

/-- Modelled from the spec: a scalar kind descriptor, defined by a
representable range and an integral / fractional shape flag. -/
structure Kind where
  kmin : Rat
  kmax : Rat
  integral : Bool
deriving DecidableEq, Repr

/-- A scalar kind is valid when its range is nonempty and, for Integral
kinds, the two bounds are whole numbers. -/
def Kind.valid (k : Kind) : Prop :=
  k.kmin ≤ k.kmax ∧ (k.integral = true → k.kmin.den = 1 ∧ k.kmax.den = 1)

instance (k : Kind) : Decidable k.valid := by
  unfold Kind.valid; infer_instance

/-- Truncation toward zero of a rational, as an integer. -/
def truncR (r : Rat) : Int := if 0 ≤ r then ⌊r⌋ else ⌈r⌉

/-- Round half away from zero of a rational, as an integer. -/
def roundR (r : Rat) : Int := if 0 ≤ r then ⌊r + 1/2⌋ else ⌈r - 1/2⌉

/-- Modelled from the spec: saturate a raw value to the nearest bound when
it exceeds the range, otherwise pass it through. -/
def Kind.sat (k : Kind) (r : Rat) : Rat :=
  if r < k.kmin then k.kmin else if k.kmax < r then k.kmax else r

/-- Modelled from the spec: the Cast policy. The raw value must already be
within range and, for Integral kinds, a whole number; otherwise the
operation fails with a range / non-integral error. No rounding occurs. -/
def Kind.cast (k : Kind) (r : Rat) : Except CoerceErr Rat :=
  if r < k.kmin ∨ k.kmax < r then .error .range
  else if k.integral = true ∧ r.den ≠ 1 then .error .range
  else .ok r

/-- Modelled from the spec: the Clamp policy. Saturate to the violated
bound; in-range values pass through, except that Integral kinds
additionally truncate toward zero. -/
def Kind.clampC (k : Kind) (r : Rat) : Rat :=
  if r < k.kmin then k.kmin
  else if k.kmax < r then k.kmax
  else if k.integral = true then (truncR r : Rat) else r

/-- Modelled from the spec: the Ceil policy, mathematical ceiling first,
then saturation into the range. -/
def Kind.ceilC (k : Kind) (r : Rat) : Rat := k.sat (⌈r⌉ : Rat)

/-- Modelled from the spec: the Floor policy, mathematical floor first,
then saturation into the range. -/
def Kind.floorC (k : Kind) (r : Rat) : Rat := k.sat (⌊r⌋ : Rat)

/-- Modelled from the spec: the Round policy, round half away from zero
first, then saturation into the range. -/
def Kind.roundC (k : Kind) (r : Rat) : Rat := k.sat (roundR r : Rat)

/-- Modelled from the spec: the Trunc policy, truncation toward zero first,
then saturation into the range. -/
def Kind.truncC (k : Kind) (r : Rat) : Rat := k.sat (truncR r : Rat)

/-- The six coercion policies of the calculus. -/
inductive Policy where
  | cast
  | clamp
  | ceil
  | floor
  | round
  | trunc
deriving DecidableEq, Repr

/-- Apply a coercion policy of kind `k` to a raw value. Only Cast can
fail; the five remaining policies are total. -/
def Kind.coerce (k : Kind) : Policy → Rat → Except CoerceErr Rat
  | .cast, r => k.cast r
  | .clamp, r => .ok (k.clampC r)
  | .ceil, r => .ok (k.ceilC r)
  | .floor, r => .ok (k.floorC r)
  | .round, r => .ok (k.roundC r)
  | .trunc, r => .ok (k.truncC r)

/-- The 16-bit unsigned integral kind backing `U16XY`. -/
def U16 : Kind := ⟨0, 65535, true⟩

/-- The 4-bit signed integral kind backing `I4XY`. -/
def I4 : Kind := ⟨-8, 7, true⟩

/-- The runtime state of an XY vector: its two numeric fields. -/
structure XYv where
  x : Rat
  y : Rat
deriving DecidableEq, Repr

/-- Outcome of a mutating XY method: the escaped error, if any, together
with the state of the vector observable afterwards. -/
structure OpResult where
  err : Option CoerceErr
  state : XYv
deriving DecidableEq, Repr

/-- Sequential two-field update, embedded from the method bodies of the XY
classes: the x field is assigned first and the y field second, so a failure
of the x coercion leaves the vector untouched while a failure of the y
coercion leaves the freshly assigned x in place. -/
def XYv.assign2 (v : XYv) (ex ey : Except CoerceErr Rat) : OpResult :=
  match ex with
  | .error e => ⟨some e, v⟩
  | .ok nx =>
    match ey with
    | .error e => ⟨some e, ⟨nx, v.y⟩⟩
    | .ok ny => ⟨none, ⟨nx, ny⟩⟩

/-- The seven mutating operation families of the XY surface. -/
inductive MutOp where
  | set
  | add
  | sub
  | mul
  | div
  | min
  | max
deriving DecidableEq, Repr

/-- Componentwise arithmetic of one operation family, before coercion.
Division by a zero component is the distinct division-by-zero failure of
the calculus; every other combination is total. -/
def MutOp.applyC : MutOp → Rat → Rat → Except CoerceErr Rat
  | .set, _, a => .ok a
  | .add, c, a => .ok (c + a)
  | .sub, c, a => .ok (c - a)
  | .mul, c, a => .ok (c * a)
  | .div, c, a => if a = 0 then .error .divByZero else .ok (c / a)
  | .min, c, a => .ok (Min.min c a)
  | .max, c, a => .ok (Max.max c a)

/-- One mutating XY method, embedded from the uniform source pattern
of the XY classes: each method computes the new x from the current x and
the x argument, coerces it under the selected policy and assigns it, then
does the same for y. -/
def runOp (k : Kind) (op : MutOp) (pol : Policy) (v : XYv) (ax ay : Rat) :
    OpResult :=
  v.assign2 ((op.applyC v.x ax).bind (k.coerce pol))
    ((op.applyC v.y ay).bind (k.coerce pol))

/-- Embeds `U16XY.set`. -/
def U16XY.set (v : XYv) (x y : Rat) : OpResult := runOp U16 .set .cast v x y

/-- Embeds `U16XY.add`. -/
def U16XY.add (v : XYv) (x y : Rat) : OpResult := runOp U16 .add .cast v x y

/-- Embeds `U16XY.addCeil`. -/
def U16XY.addCeil (v : XYv) (x y : Rat) : OpResult :=
  runOp U16 .add .ceil v x y

/-- Embeds `U16XY.div`. -/
def U16XY.div (v : XYv) (x y : Rat) : OpResult := runOp U16 .div .cast v x y

/-- Embeds `I4XY.add`. -/
def I4XY.add (v : XYv) (x y : Rat) : OpResult := runOp I4 .add .cast v x y

/-- Embeds `I4XY.divClamp`. -/
def I4XY.divClamp (v : XYv) (x y : Rat) : OpResult :=
  runOp I4 .div .clamp v x y

/-- Construction of an XY vector under a policy: the bare constructor is
`mkXY k .cast`, and the named class-level factories are the same pipeline
under their policy. The constructor coerces x first, then y, and a failure
escapes before the instance exists. -/
def mkXY (k : Kind) (pol : Policy) (x y : Rat) : Except CoerceErr XYv := do
  let nx ← k.coerce pol x
  let ny ← k.coerce pol y
  pure ⟨nx, ny⟩

/-- Embeds the `x` property setter of the XY classes: the incoming value is
stored directly in the private field, with no runtime coercion. -/
def XYv.setX (v : XYv) (n : Rat) : XYv := ⟨n, v.y⟩

/-- Embeds the `y` property setter of the XY classes: the incoming value is
stored directly in the private field, with no runtime coercion. -/
def XYv.setY (v : XYv) (n : Rat) : XYv := ⟨v.x, n⟩

/-- A raw number is a valid scalar of kind `k` when it is in range and, for
Integral kinds, a whole number. -/
def ValidScalar (k : Kind) (r : Rat) : Prop :=
  k.kmin ≤ r ∧ r ≤ k.kmax ∧ (k.integral = true → r.den = 1)

instance (k : Kind) (r : Rat) : Decidable (ValidScalar k r) := by
  unfold ValidScalar; infer_instance

/-- The always-valid invariant of an XY vector: both components are valid
scalars of its kind. -/
def ValidXY (k : Kind) (v : XYv) : Prop :=
  ValidScalar k v.x ∧ ValidScalar k v.y

instance (k : Kind) (v : XYv) : Decidable (ValidXY k v) := by
  unfold ValidXY; infer_instance

/-- The serialized shape of an XY vector: each field may be absent. -/
structure XYJSON where
  x : Option Rat
  y : Option Rat
deriving DecidableEq, Repr

/-- Embeds `I4XY.toJSON`: a component is omitted from the record exactly
when it equals 0. -/
def I4XY.toJSON (v : XYv) : XYJSON :=
  ⟨if v.x = 0 then none else some v.x, if v.y = 0 then none else some v.y⟩

/-- Embeds `I4XY.fromJSON`: a missing field defaults to 0 and the pair is
passed to the bare (Cast) constructor. -/
def I4XY.fromJSON (j : XYJSON) : Except CoerceErr XYv :=
  mkXY I4 .cast (j.x.getD 0) (j.y.getD 0)

/-- Embeds the `eq` method of the XY classes: exact structural comparison
of both components against the arguments. -/
def XYv.eqv (v : XYv) (x y : Rat) : Bool := v.x == x && v.y == y

/-- JavaScript ToInt32: reduce an integer into the signed 32-bit range. -/
def toInt32 (n : Int) : Int := (n + 2 ^ 31) % 2 ^ 32 - 2 ^ 31

/-- JavaScript signed right shift `n >> s`: convert to int32, then
arithmetic shift, which is flooring division by a power of two. -/
def jsShr (n : Int) (s : Nat) : Int := Int.fdiv (toInt32 n) (2 ^ s)

/-- JavaScript bitwise AND with 0xff: the low eight bits of the int32 twos
complement representation, i.e. the nonnegative remainder modulo 256. -/
def jsAnd255 (n : Int) : Int := toInt32 n % 256

/-- One channel of `colorIntToFloats`: shift, mask, divide by 0xff. -/
def colorChannel (color : Int) (s : Nat) : Rat :=
  ((jsAnd255 (jsShr color s) : Int) : Rat) / 255

/-- Embeds `colorIntToFloats` from src/utils/color.ts: the four channels
of a packed RGBA integer, most significant byte first, each scaled
into the unit interval. -/
def colorIntToFloats (color : Int) : List Rat :=
  [colorChannel color 24, colorChannel color 16, colorChannel color 8,
    colorChannel color 0]

/-! Shared lemmas about the coercion calculus. -/

theorem Kind.sat_mem (k : Kind) (hk : k.kmin ≤ k.kmax) (r : Rat) :
    k.kmin ≤ k.sat r ∧ k.sat r ≤ k.kmax := by
  unfold Kind.sat
  split
  next => exact ⟨le_refl _, hk⟩
  next h1 =>
    split
    next => exact ⟨hk, le_refl _⟩
    next h2 => exact ⟨not_lt.mp h1, not_lt.mp h2⟩

theorem Kind.cast_ok_of_valid (k : Kind) (r : Rat) (h : ValidScalar k r) :
    k.cast r = .ok r := by
  have h1 : ¬(r < k.kmin ∨ k.kmax < r) := by
    push_neg
    exact ⟨h.1, h.2.1⟩
  have h2 : ¬(k.integral = true ∧ r.den ≠ 1) := by
    rintro ⟨hi, hd⟩
    exact hd (h.2.2 hi)
  unfold Kind.cast
  rw [if_neg h1, if_neg h2]

theorem Kind.cast_ok_elim (k : Kind) (r s : Rat) (h : k.cast r = .ok s) :
    s = r ∧ ValidScalar k r := by
  unfold Kind.cast at h
  split at h
  next => exact absurd h (by simp)
  next h1 =>
    split at h
    next => exact absurd h (by simp)
    next h2 =>
      push_neg at h1
      refine ⟨(Except.ok.inj h).symm, h1.1, h1.2, ?_⟩
      intro hi
      by_contra hd
      exact h2 ⟨hi, hd⟩

theorem truncR_intCast (z : ℤ) : truncR (z : ℚ) = z := by
  unfold truncR
  split
  next => exact Int.floor_intCast z
  next => exact Int.ceil_intCast z

theorem roundR_intCast (z : ℤ) : roundR (z : ℚ) = z := by
  unfold roundR
  split
  next =>
    rw [Int.floor_int_add]
    rw [show ⌊(1:ℚ)/2⌋ = 0 by rw [Int.floor_eq_iff]; norm_num]
    omega
  next =>
    rw [show ((z:ℚ) - 1/2) = -(1/2) + (z:ℚ) by ring]
    rw [Int.ceil_add_int]
    rw [show ⌈(-(1/2) : ℚ)⌉ = 0 by rw [Int.ceil_eq_iff]; norm_num]
    omega

theorem truncR_mem_of_le (a b : ℤ) (r : ℚ) (hm : (a:ℚ) ≤ r) (hM : r ≤ (b:ℚ)) :
    (a:ℚ) ≤ ((truncR r : ℤ) : ℚ) ∧ ((truncR r : ℤ) : ℚ) ≤ (b:ℚ) := by
  unfold truncR
  split
  next h =>
    constructor
    · exact_mod_cast Int.le_floor.mpr hm
    · exact le_trans (Int.floor_le r) hM
  next h =>
    constructor
    · exact le_trans hm (Int.le_ceil r)
    · exact_mod_cast Int.ceil_le.mpr hM

theorem Kind.bounds_intCast (k : Kind) (hk : k.valid) (hi : k.integral = true) :
    ((k.kmin.num : ℤ) : ℚ) = k.kmin ∧ ((k.kmax.num : ℤ) : ℚ) = k.kmax :=
  ⟨(Rat.den_eq_one_iff _).mp (hk.2 hi).1, (Rat.den_eq_one_iff _).mp (hk.2 hi).2⟩

theorem Kind.cast_err_of_out (k : Kind) (r : Rat)
    (h : r < k.kmin ∨ k.kmax < r) : k.cast r = .error .range := by
  unfold Kind.cast
  rw [if_pos h]

theorem Kind.sat_below (k : Kind) (r : Rat) (h : r < k.kmin) :
    k.sat r = k.kmin := by
  unfold Kind.sat
  rw [if_pos h]

theorem Kind.sat_above (k : Kind) (hk : k.kmin ≤ k.kmax) (r : Rat)
    (h : k.kmax < r) : k.sat r = k.kmax := by
  unfold Kind.sat
  rw [if_neg (not_lt.mpr (le_trans hk (le_of_lt h))), if_pos h]

theorem XYv.assign2_ok (v w : XYv) (ex ey : Except CoerceErr Rat)
    (h : v.assign2 ex ey = ⟨none, w⟩) : ex = .ok w.x ∧ ey = .ok w.y := by
  unfold XYv.assign2 at h
  rcases hx : ex with e | nx <;> rw [hx] at h
  · injection h with h1 h2
    exact absurd h1 (by simp)
  · rcases hy : ey with e | ny <;> rw [hy] at h
    · injection h with h1 h2
      exact absurd h1 (by simp)
    · injection h with h1 h2
      rw [← h2]
      exact ⟨rfl, rfl⟩

/-- For an Integral kind, each of the four rounding policies saturates
the value one below the min to min and one above the max to max. -/
theorem Kind.int_policy_out (k : Kind) (hk : k.valid) (hi : k.integral = true) :
    k.ceilC (k.kmin - 1) = k.kmin ∧ k.floorC (k.kmin - 1) = k.kmin ∧
    k.roundC (k.kmin - 1) = k.kmin ∧ k.truncC (k.kmin - 1) = k.kmin ∧
    k.ceilC (k.kmax + 1) = k.kmax ∧ k.floorC (k.kmax + 1) = k.kmax ∧
    k.roundC (k.kmax + 1) = k.kmax ∧ k.truncC (k.kmax + 1) = k.kmax := by
  obtain ⟨ha, hb⟩ := k.bounds_intCast hk hi
  have e1 : k.kmin - 1 = ((k.kmin.num - 1 : ℤ) : ℚ) := by
    push_cast
    rw [ha]
  have e2 : k.kmax + 1 = ((k.kmax.num + 1 : ℤ) : ℚ) := by
    push_cast
    rw [hb]
  have hlo : ((k.kmin.num - 1 : ℤ) : ℚ) < k.kmin := by
    rw [← ha]
    exact_mod_cast sub_one_lt k.kmin.num
  have hhi : k.kmax < ((k.kmax.num + 1 : ℤ) : ℚ) := by
    conv_lhs => rw [← hb]
    exact_mod_cast lt_add_one k.kmax.num
  refine ⟨?_, ?_, ?_, ?_, ?_, ?_, ?_, ?_⟩
  · unfold Kind.ceilC
    rw [e1, Int.ceil_intCast]
    exact k.sat_below _ hlo
  · unfold Kind.floorC
    rw [e1, Int.floor_intCast]
    exact k.sat_below _ hlo
  · unfold Kind.roundC
    rw [e1, roundR_intCast]
    exact k.sat_below _ hlo
  · unfold Kind.truncC
    rw [e1, truncR_intCast]
    exact k.sat_below _ hlo
  · unfold Kind.ceilC
    rw [e2, Int.ceil_intCast]
    exact k.sat_above hk.1 _ hhi
  · unfold Kind.floorC
    rw [e2, Int.floor_intCast]
    exact k.sat_above hk.1 _ hhi
  · unfold Kind.roundC
    rw [e2, roundR_intCast]
    exact k.sat_above hk.1 _ hhi
  · unfold Kind.truncC
    rw [e2, truncR_intCast]
    exact k.sat_above hk.1 _ hhi

theorem eval_add_fix : runOp U16 .add .cast ⟨5, 5⟩ 2 100000 =
    ⟨some CoerceErr.range, ⟨7, 5⟩⟩ := by
  have hx : U16.cast ((5:ℚ) + 2) = .ok 7 := by
    rw [show ((5:ℚ) + 2) = 7 by norm_num]
    exact U16.cast_ok_of_valid 7 (by decide)
  have hy : U16.cast ((5:ℚ) + 100000) = .error .range := by
    rw [show ((5:ℚ) + 100000) = 100005 by norm_num]
    exact U16.cast_err_of_out 100005 (Or.inr (by decide))
  simp only [runOp, MutOp.applyC, Kind.coerce, Except.bind, XYv.assign2]
  rw [hx, hy]

theorem eval_div_fix : runOp U16 .div .cast ⟨4, 4⟩ 2 0 =
    ⟨some CoerceErr.divByZero, ⟨2, 4⟩⟩ := by
  have d1 : (MutOp.applyC .div (4:ℚ) 2).bind (U16.coerce .cast) = .ok 2 := by
    simp only [MutOp.applyC]
    rw [if_neg (by norm_num : ¬(2:ℚ) = 0)]
    simp only [Except.bind, Kind.coerce]
    rw [show ((4:ℚ) / 2) = 2 by norm_num]
    exact U16.cast_ok_of_valid 2 (by decide)
  have d2 : (MutOp.applyC .div (4:ℚ) 0).bind (U16.coerce .cast) =
      .error .divByZero := by
    simp [MutOp.applyC, Except.bind]
  show XYv.assign2 ⟨4, 4⟩ ((MutOp.applyC .div (4:ℚ) 2).bind (U16.coerce .cast))
    ((MutOp.applyC .div (4:ℚ) 0).bind (U16.coerce .cast)) = _
  rw [d1, d2]
  rfl

theorem eval_addCeil_fix : runOp U16 .add .ceil ⟨5, 10⟩ (655342/10) (-37/10) =
    ⟨none, ⟨65535, 7⟩⟩ := by
  have hx : U16.ceilC ((5:ℚ) + 655342/10) = 65535 := by
    rw [show ((5:ℚ) + 655342/10) = 327696/5 by norm_num]
    unfold Kind.ceilC
    rw [show (⌈(327696:ℚ)/5⌉ : ℤ) = 65540 by rw [Int.ceil_eq_iff]; norm_num]
    exact U16.sat_above (by decide) _ (by norm_num [U16])
  have hy : U16.ceilC ((10:ℚ) + -37/10) = 7 := by
    rw [show ((10:ℚ) + -37/10) = 63/10 by norm_num]
    unfold Kind.ceilC
    rw [show (⌈(63:ℚ)/10⌉ : ℤ) = 7 by rw [Int.ceil_eq_iff]; norm_num]
    unfold Kind.sat
    rw [if_neg (by norm_num [U16]), if_neg (by norm_num [U16])]
    norm_num
  show XYv.assign2 ⟨5, 10⟩
    ((MutOp.applyC .add (5:ℚ) (655342/10)).bind (U16.coerce .ceil))
    ((MutOp.applyC .add (10:ℚ) (-37/10)).bind (U16.coerce .ceil)) = _
  simp only [MutOp.applyC, Except.bind, Kind.coerce]
  rw [hx, hy]
  rfl

/-- C1 (counterexample): the claim of strong exception safety fails on the
code. `U16XY.add` on the valid vector (5, 5) with arguments (2, 100000)
fails with a range error while coercing y, yet x has already been updated
to 7: the observable state (7, 5) differs from the prior state (5, 5). -/
theorem c1_partial_mutation_cex :
    U16XY.add ⟨5, 5⟩ 2 100000 = ⟨some CoerceErr.range, ⟨7, 5⟩⟩ ∧
    (⟨7, 5⟩ : XYv) ≠ ⟨5, 5⟩ :=
  ⟨eval_add_fix, by decide⟩

/-- C1 (amended): when any mutating operation fails, the y component always
retains its prior value, and when the failing coercion is the x one the
whole vector is left unchanged; but a y-side failure can leave x already
updated, so only this weaker one-sided exception safety holds. -/
theorem c1_failure_mutation_order (k : Kind) (op : MutOp) (pol : Policy)
    (v : XYv) (ax ay : Rat)
    (h : ((runOp k op pol v ax ay).err).isSome = true) :
    (runOp k op pol v ax ay).state.y = v.y ∧
    (∀ e, (op.applyC v.x ax).bind (k.coerce pol) = .error e →
      (runOp k op pol v ax ay).state = v) := by
  unfold runOp XYv.assign2 at h ⊢
  rcases hx : (op.applyC v.x ax).bind (k.coerce pol) with e | nx
  · exact ⟨rfl, fun _ _ => rfl⟩
  · rcases hy : (op.applyC v.y ay).bind (k.coerce pol) with e | ny
    · refine ⟨rfl, ?_⟩
      intro e2 he2
      exact absurd he2 (by simp)
    · rw [hx, hy] at h
      simp at h

/-- C1 (witness): the amended theorem applied to the concrete failing
addition of the counterexample. -/
theorem c1_failure_mutation_order_witness :
    ((runOp U16 .add .cast ⟨5, 5⟩ 2 100000).err).isSome = true ∧
    (runOp U16 .add .cast ⟨5, 5⟩ 2 100000).state.y = (⟨5, 5⟩ : XYv).y :=
  ⟨by rw [eval_add_fix]; rfl, (c1_failure_mutation_order U16 .add .cast ⟨5, 5⟩ 2
    100000 (by rw [eval_add_fix]; rfl)).1⟩

/-- C2 (counterexample): dividing (4, 4) by (2, 0) fails with the
division-by-zero error, but the prior state is not left unchanged: x has
already been updated to 2 when the zero y divisor is hit. -/
theorem c2_div_zero_cex :
    U16XY.div ⟨4, 4⟩ 2 0 = ⟨some CoerceErr.divByZero, ⟨2, 4⟩⟩ ∧
    (⟨2, 4⟩ : XYv) ≠ ⟨4, 4⟩ :=
  ⟨eval_div_fix, by decide⟩

/-- C2 (amended): a Div-family operation with a zero divisor component
always fails, the y component is never left mutated, and when the x divisor
is zero the failure is the division-by-zero error with the whole vector
unchanged; a zero y divisor alone still fails with division-by-zero
after x may already have been updated. -/
theorem c2_div_by_zero (k : Kind) (pol : Policy) (v : XYv) (ax ay : Rat)
    (h : ax = 0 ∨ ay = 0) :
    ((runOp k .div pol v ax ay).err).isSome = true ∧
    (runOp k .div pol v ax ay).state.y = v.y ∧
    (ax = 0 → runOp k .div pol v ax ay = ⟨some CoerceErr.divByZero, v⟩) := by
  by_cases hax : ax = 0
  · subst hax
    have hx : (MutOp.applyC .div v.x 0).bind (k.coerce pol) =
        .error .divByZero := by
      simp [MutOp.applyC, Except.bind]
    unfold runOp XYv.assign2
    rw [hx]
    exact ⟨rfl, rfl, fun _ => rfl⟩
  · have hay : ay = 0 := h.resolve_left hax
    subst hay
    have hy : (MutOp.applyC .div v.y 0).bind (k.coerce pol) =
        .error .divByZero := by
      simp [MutOp.applyC, Except.bind]
    unfold runOp XYv.assign2
    rw [hy]
    rcases hx : (MutOp.applyC .div v.x ax).bind (k.coerce pol) with e | nx
    · exact ⟨rfl, rfl, fun h0 => absurd h0 hax⟩
    · exact ⟨rfl, rfl, fun h0 => absurd h0 hax⟩

/-- C2 (witness): the amended theorem applied to the specification's own
example, dividing (4, 4) by (0, 2): the operation fails with the
division-by-zero error and the vector is unchanged. -/
theorem c2_div_by_zero_witness :
    ((0:ℚ) = 0 ∨ (2:ℚ) = 0) ∧
    runOp U16 .div .cast ⟨4, 4⟩ 0 2 = ⟨some CoerceErr.divByZero, ⟨4, 4⟩⟩ :=
  ⟨Or.inl rfl,
    (c2_div_by_zero U16 .cast ⟨4, 4⟩ 0 2 (Or.inl rfl)).2.2 rfl⟩

/-- C3 (counterexample): the claimed result (65535, 6) of
`new Vec(5,10).addCeil(65534.2, -3.7)` is wrong on the code: the y
component is 10 - 3.7 = 6.3, whose ceiling is 7, not 6. -/
theorem c3_addCeil_fixture_cex :
    U16XY.addCeil ⟨5, 10⟩ (655342/10) (-37/10) = ⟨none, ⟨65535, 7⟩⟩ ∧
    (⟨none, ⟨65535, 7⟩⟩ : OpResult) ≠ ⟨none, ⟨65535, 6⟩⟩ :=
  ⟨eval_addCeil_fix, by decide⟩

/-- C3 (amended): `new Vec(5,10).addCeil(65534.2, -3.7)` yields
(65535, 7): x adds to 65539.2, is ceiled to 65540 and saturated to 65535;
y adds to 6.3 and is ceiled to 7. -/
theorem c3_addCeil_fixture :
    U16XY.addCeil ⟨5, 10⟩ (655342/10) (-37/10) = ⟨none, ⟨65535, 7⟩⟩ :=
  eval_addCeil_fix

/-- C4: for every valid Integral-style scalar kind, the Ceil, Floor, Round
and Trunc coercions apply the rounding function to the raw value first and
then saturate into the range, so the result always lies within the bounds;
in particular ceiling any value above the max saturates to max rather than
exceeding it. -/
theorem c4_rounding_before_saturation (k : Kind) (hk : k.valid) (r : Rat) :
    (k.ceilC r = k.sat ((⌈r⌉ : ℤ) : ℚ) ∧
      k.floorC r = k.sat ((⌊r⌋ : ℤ) : ℚ) ∧
      k.roundC r = k.sat ((roundR r : ℤ) : ℚ) ∧
      k.truncC r = k.sat ((truncR r : ℤ) : ℚ)) ∧
    (k.kmin ≤ k.ceilC r ∧ k.ceilC r ≤ k.kmax) ∧
    (k.kmin ≤ k.floorC r ∧ k.floorC r ≤ k.kmax) ∧
    (k.kmin ≤ k.roundC r ∧ k.roundC r ≤ k.kmax) ∧
    (k.kmin ≤ k.truncC r ∧ k.truncC r ≤ k.kmax) ∧
    (k.kmax < r → k.ceilC r = k.kmax) := by
  refine ⟨⟨rfl, rfl, rfl, rfl⟩, k.sat_mem hk.1 _, k.sat_mem hk.1 _,
    k.sat_mem hk.1 _, k.sat_mem hk.1 _, ?_⟩
  intro hr
  have hcr : k.kmax < ((⌈r⌉ : ℤ) : ℚ) := lt_of_lt_of_le hr (Int.le_ceil r)
  exact k.sat_above hk.1 _ hcr

/-- C4 (witness): the 16-bit unsigned kind at the boundary value 65535.5:
the ceiled value 65536 saturates back to the max. -/
theorem c4_rounding_before_saturation_witness :
    U16.valid ∧ (U16.kmin ≤ U16.ceilC (131071/2) ∧
      U16.ceilC (131071/2) ≤ U16.kmax) :=
  ⟨by decide, (c4_rounding_before_saturation U16 (by decide) (131071/2)).2.1⟩

/-- C6: for every valid scalar kind, Clamp always lands within the range,
and on an in-range (and, for Integral kinds, whole) raw value Clamp and
Cast both return the value unchanged. -/
theorem c6_clamp_in_range_and_agreement (k : Kind) (hk : k.valid) (r : Rat) :
    (k.kmin ≤ k.clampC r ∧ k.clampC r ≤ k.kmax) ∧
    (k.kmin ≤ r → r ≤ k.kmax → (k.integral = true → r.den = 1) →
      k.clampC r = r ∧ k.cast r = .ok r) := by
  constructor
  · unfold Kind.clampC
    split
    next => exact ⟨le_refl _, hk.1⟩
    next h1 =>
      split
      next => exact ⟨hk.1, le_refl _⟩
      next h2 =>
        split
        next hi =>
          obtain ⟨ha, hb⟩ := k.bounds_intCast hk hi
          have h3 : ((k.kmin.num : ℤ) : ℚ) ≤ r := by
            rw [ha]
            exact not_lt.mp h1
          have h4 : r ≤ ((k.kmax.num : ℤ) : ℚ) := by
            rw [hb]
            exact not_lt.mp h2
          have h5 := truncR_mem_of_le _ _ r h3 h4
          exact ⟨ha ▸ h5.1, hb ▸ h5.2⟩
        next => exact ⟨not_lt.mp h1, not_lt.mp h2⟩
  · intro hm hM hden
    constructor
    · unfold Kind.clampC
      rw [if_neg (not_lt.mpr hm), if_neg (not_lt.mpr hM)]
      split
      next hi =>
        have he : r = ((r.num : ℤ) : ℚ) := ((Rat.den_eq_one_iff _).mp
          (hden hi)).symm
        rw [he, truncR_intCast]
      next => rfl
    · exact k.cast_ok_of_valid r ⟨hm, hM, hden⟩

/-- C6 (witness): the 4-bit signed kind at the out-of-range value -8.5:
Clamp lands within the range. -/
theorem c6_clamp_witness :
    I4.valid ∧ (I4.kmin ≤ I4.clampC (-17/2) ∧ I4.clampC (-17/2) ≤ I4.kmax) :=
  ⟨by decide, (c6_clamp_in_range_and_agreement I4 (by decide) (-17/2)).1⟩

/-- C5: for every valid scalar kind, constructing at exactly min or max
succeeds under Cast with the values unchanged, constructing at min-1 or
max+1 fails under Cast with the range error, and the Clamp factory (and,
for Integral kinds, the Ceil / Floor / Round / Trunc factories) succeeds on
those out-of-range inputs with the components saturated to the violated
bound. -/
theorem c5_boundary_construction (k : Kind) (hk : k.valid) :
    mkXY k .cast k.kmin k.kmax = .ok ⟨k.kmin, k.kmax⟩ ∧
    mkXY k .cast (k.kmin - 1) (k.kmin - 1) = .error .range ∧
    mkXY k .cast (k.kmax + 1) (k.kmax + 1) = .error .range ∧
    mkXY k .clamp (k.kmin - 1) (k.kmax + 1) = .ok ⟨k.kmin, k.kmax⟩ ∧
    (k.integral = true →
      mkXY k .ceil (k.kmin - 1) (k.kmax + 1) = .ok ⟨k.kmin, k.kmax⟩ ∧
      mkXY k .floor (k.kmin - 1) (k.kmax + 1) = .ok ⟨k.kmin, k.kmax⟩ ∧
      mkXY k .round (k.kmin - 1) (k.kmax + 1) = .ok ⟨k.kmin, k.kmax⟩ ∧
      mkXY k .trunc (k.kmin - 1) (k.kmax + 1) = .ok ⟨k.kmin, k.kmax⟩) := by
  have hmin : k.cast k.kmin = .ok k.kmin :=
    k.cast_ok_of_valid _ ⟨le_refl _, hk.1, fun hi => (hk.2 hi).1⟩
  have hmax : k.cast k.kmax = .ok k.kmax :=
    k.cast_ok_of_valid _ ⟨hk.1, le_refl _, fun hi => (hk.2 hi).2⟩
  have hlo : k.cast (k.kmin - 1) = .error .range :=
    k.cast_err_of_out _ (Or.inl (by linarith))
  have hhi : k.cast (k.kmax + 1) = .error .range :=
    k.cast_err_of_out _ (Or.inr (by linarith))
  have hclo : k.clampC (k.kmin - 1) = k.kmin := by
    unfold Kind.clampC
    rw [if_pos (by linarith)]
  have hchi : k.clampC (k.kmax + 1) = k.kmax := by
    unfold Kind.clampC
    rw [if_neg (not_lt.mpr (by linarith [hk.1])), if_pos (by linarith)]
  refine ⟨?_, ?_, ?_, ?_, ?_⟩
  · simp only [mkXY, Kind.coerce, Except.bind]
    rw [hmin, hmax]
    rfl
  · simp only [mkXY, Kind.coerce, Except.bind]
    rw [hlo]
    rfl
  · simp only [mkXY, Kind.coerce, Except.bind]
    rw [hhi]
    rfl
  · simp only [mkXY, Kind.coerce, Except.bind, hclo, hchi]
    rfl
  · intro hi
    obtain ⟨p1, p2, p3, p4, p5, p6, p7, p8⟩ := k.int_policy_out hk hi
    refine ⟨?_, ?_, ?_, ?_⟩ <;>
      simp only [mkXY, Kind.coerce, Except.bind, p1, p2, p3, p4, p5, p6, p7,
        p8] <;> rfl

/-- C5 (witness): the 16-bit unsigned kind: construction at the exact
bounds succeeds under Cast. -/
theorem c5_boundary_construction_witness :
    U16.valid ∧ mkXY U16 .cast U16.kmin U16.kmax = .ok ⟨U16.kmin, U16.kmax⟩ :=
  ⟨by decide, (c5_boundary_construction U16 (by decide)).1⟩

/-- C7: for every valid I4 vector, a component is omitted from the JSON
record exactly when it equals 0, a missing field reads back as 0, and
`fromJSON (toJSON v)` reconstructs a vector that is eq-equal to `v`. -/
theorem c7_json_roundtrip (v : XYv) (h : ValidXY I4 v) :
    ((I4XY.toJSON v).x = none ↔ v.x = 0) ∧
    ((I4XY.toJSON v).y = none ↔ v.y = 0) ∧
    I4XY.fromJSON (I4XY.toJSON v) = .ok v ∧
    (I4XY.fromJSON (I4XY.toJSON v)).map (fun w => w.eqv v.x v.y) =
      .ok true := by
  have hx : (if v.x = 0 then (none : Option Rat) else some v.x).getD 0 =
      v.x := by
    split
    next h0 => simp [h0]
    next => simp
  have hy : (if v.y = 0 then (none : Option Rat) else some v.y).getD 0 =
      v.y := by
    split
    next h0 => simp [h0]
    next => simp
  have hfrom : I4XY.fromJSON (I4XY.toJSON v) = .ok v := by
    unfold I4XY.fromJSON I4XY.toJSON
    simp only [hx, hy]
    simp only [mkXY, Kind.coerce]
    rw [I4.cast_ok_of_valid v.x h.1, I4.cast_ok_of_valid v.y h.2]
    rfl
  refine ⟨?_, ?_, hfrom, ?_⟩
  · unfold I4XY.toJSON
    split
    next h0 => simp [h0]
    next h0 => simp [h0]
  · unfold I4XY.toJSON
    split
    next h0 => simp
    next h0 =>
      split
      next h1 => simp [h1]
      next h1 => simp [h1]
  · rw [hfrom]
    simp [Except.map, XYv.eqv]

/-- C7 (witness): the valid I4 vector (0, 7): its x field is omitted from
the JSON record and the round trip reconstructs the vector. -/
theorem c7_json_roundtrip_witness :
    ValidXY I4 ⟨0, 7⟩ ∧ I4XY.fromJSON (I4XY.toJSON ⟨0, 7⟩) = .ok ⟨0, 7⟩ :=
  ⟨by decide, (c7_json_roundtrip ⟨0, 7⟩ (by decide)).2.2.1⟩

/-- C8: when a chained `vec.set(a,b).add(c,d)` succeeds, the final state
equals the vector freshly constructed from (a+c, b+d) under the same Cast
policy; the state threading of the chain embeds the methods returning the
mutated instance itself. -/
theorem c8_chaining (k : Kind) (v v1 v2 : XYv) (a b c d : Rat)
    (h1 : runOp k .set .cast v a b = ⟨none, v1⟩)
    (h2 : runOp k .add .cast v1 c d = ⟨none, v2⟩) :
    mkXY k .cast (a + c) (b + d) = .ok v2 := by
  unfold runOp at h1 h2
  obtain ⟨hsa, hsb⟩ := XYv.assign2_ok _ _ _ _ h1
  obtain ⟨haa, hab⟩ := XYv.assign2_ok _ _ _ _ h2
  simp only [MutOp.applyC, Except.bind, Kind.coerce] at hsa hsb haa hab
  obtain ⟨ea, _⟩ := k.cast_ok_elim _ _ hsa
  obtain ⟨eb, _⟩ := k.cast_ok_elim _ _ hsb
  rw [ea] at haa
  rw [eb] at hab
  simp only [mkXY, Kind.coerce, Except.bind]
  rw [haa, hab]
  rfl

/-- C8 (witness): the chain set(3,4) then add(5,6) on a U16 vector ends in
(8, 10), the same as constructing from (3+5, 4+6) directly. -/
theorem c8_chaining_witness :
    runOp U16 .set .cast ⟨1, 2⟩ 3 4 = ⟨none, ⟨3, 4⟩⟩ ∧
    runOp U16 .add .cast ⟨3, 4⟩ 5 6 = ⟨none, ⟨8, 10⟩⟩ ∧
    mkXY U16 .cast (3 + 5) (4 + 6) = .ok ⟨8, 10⟩ := by
  have hset : runOp U16 .set .cast ⟨1, 2⟩ 3 4 = ⟨none, ⟨3, 4⟩⟩ := by
    show XYv.assign2 ⟨1, 2⟩
      ((MutOp.applyC .set (1:ℚ) 3).bind (U16.coerce .cast))
      ((MutOp.applyC .set (2:ℚ) 4).bind (U16.coerce .cast)) = _
    simp only [MutOp.applyC, Except.bind, Kind.coerce]
    rw [U16.cast_ok_of_valid 3 (by decide), U16.cast_ok_of_valid 4 (by decide)]
    rfl
  have hadd : runOp U16 .add .cast ⟨3, 4⟩ 5 6 = ⟨none, ⟨8, 10⟩⟩ := by
    have e1 : U16.cast ((3:ℚ) + 5) = .ok 8 := by
      rw [show ((3:ℚ) + 5) = 8 by norm_num]
      exact U16.cast_ok_of_valid 8 (by decide)
    have e2 : U16.cast ((4:ℚ) + 6) = .ok 10 := by
      rw [show ((4:ℚ) + 6) = 10 by norm_num]
      exact U16.cast_ok_of_valid 10 (by decide)
    show XYv.assign2 ⟨3, 4⟩
      ((MutOp.applyC .add (3:ℚ) 5).bind (U16.coerce .cast))
      ((MutOp.applyC .add (4:ℚ) 6).bind (U16.coerce .cast)) = _
    simp only [MutOp.applyC, Except.bind, Kind.coerce]
    rw [e1, e2]
    rfl
  exact ⟨hset, hadd,
    c8_chaining U16 ⟨1, 2⟩ ⟨3, 4⟩ ⟨8, 10⟩ 3 4 5 6 hset hadd⟩

/-- C9 (counterexample): the x property setter performs no runtime
coercion: assigning the raw number 70000 to a U16 vector stores it
directly, even though Cast rejects 70000 as out of range, and the
always-valid invariant is broken afterwards. -/
theorem c9_setter_cex :
    (XYv.setX ⟨0, 0⟩ 70000).x = 70000 ∧
    U16.cast 70000 = .error .range ∧
    ¬ ValidXY U16 (XYv.setX ⟨0, 0⟩ 70000) :=
  ⟨rfl, by rfl, by decide⟩

/-- C9 (amended): the x and y setters store the assigned value directly,
with no runtime Cast; consequently the always-valid invariant is preserved
exactly when the assigned value is itself a valid scalar of the kind, as
the static branded types require of every caller. -/
theorem c9_setter_stores_raw (k : Kind) (v : XYv) (n : Rat)
    (hv : ValidXY k v) (hn : ValidScalar k n) :
    (v.setX n).x = n ∧ (v.setY n).y = n ∧
    ValidXY k (v.setX n) ∧ ValidXY k (v.setY n) :=
  ⟨rfl, rfl, ⟨hn, hv.2⟩, ⟨hv.1, hn⟩⟩

/-- C9 (witness): assigning the valid scalar 3 to the valid U16 vector
(1, 2) stores it and keeps the vector valid. -/
theorem c9_setter_stores_raw_witness :
    ValidXY U16 ⟨1, 2⟩ ∧ ValidScalar U16 3 ∧
    ((⟨1, 2⟩ : XYv).setX 3).x = 3 ∧ ValidXY U16 ((⟨1, 2⟩ : XYv).setX 3) := by
  have h := c9_setter_stores_raw U16 ⟨1, 2⟩ 3 (by decide) (by decide)
  exact ⟨by decide, by decide, h.1, h.2.2.1⟩

/-- C10: each of the four channel values of `colorIntToFloats` equals the
shift-mask-divide formula at shift 24 - 8i and lies within the unit
interval; the packed colors 0xffffffff and 0 unpack to all ones and all
zeros respectively. -/
theorem c10_color_channels :
    (∀ (c : Int) (i : Nat), i < 4 →
      (colorIntToFloats c).getD i 0 = colorChannel c (24 - 8 * i) ∧
      0 ≤ (colorIntToFloats c).getD i 0 ∧
      (colorIntToFloats c).getD i 0 ≤ 1) ∧
    colorIntToFloats 4294967295 = [1, 1, 1, 1] ∧
    colorIntToFloats 0 = [0, 0, 0, 0] := by
  have key : ∀ (c : Int) (s : Nat),
      0 ≤ colorChannel c s ∧ colorChannel c s ≤ 1 := by
    intro c s
    unfold colorChannel jsAnd255
    have h0 : (0:ℤ) ≤ toInt32 (jsShr c s) % 256 :=
      Int.emod_nonneg _ (by norm_num)
    have h1 : toInt32 (jsShr c s) % 256 ≤ 255 := by
      have := Int.emod_lt_of_pos (toInt32 (jsShr c s))
        (show (0:ℤ) < 256 by norm_num)
      omega
    constructor
    · exact div_nonneg (by exact_mod_cast h0) (by norm_num)
    · rw [div_le_one (by norm_num)]
      exact_mod_cast h1
  refine ⟨?_, ?_, ?_⟩
  · intro c i hi
    interval_cases i
    · exact ⟨rfl, (key c 24).1, (key c 24).2⟩
    · exact ⟨rfl, (key c 16).1, (key c 16).2⟩
    · exact ⟨rfl, (key c 8).1, (key c 8).2⟩
    · exact ⟨rfl, (key c 0).1, (key c 0).2⟩
  · simp only [colorIntToFloats, colorChannel,
      show jsAnd255 (jsShr 4294967295 24) = 255 by decide,
      show jsAnd255 (jsShr 4294967295 16) = 255 by decide,
      show jsAnd255 (jsShr 4294967295 8) = 255 by decide,
      show jsAnd255 (jsShr 4294967295 0) = 255 by decide]
    norm_num
  · simp only [colorIntToFloats, colorChannel,
      show jsAnd255 (jsShr 0 24) = 0 by decide,
      show jsAnd255 (jsShr 0 16) = 0 by decide,
      show jsAnd255 (jsShr 0 8) = 0 by decide,
      show jsAnd255 (jsShr 0 0) = 0 by decide]
    norm_num

/-- C10 (witness): channel 1 of the color 7 matches the formula at shift
24 - 8 and lies within the unit interval. -/
theorem c10_color_channels_witness :
    (colorIntToFloats 7).getD 1 0 = colorChannel 7 (24 - 8 * 1) ∧
    0 ≤ (colorIntToFloats 7).getD 1 0 ∧ (colorIntToFloats 7).getD 1 0 ≤ 1 :=
  c10_color_channels.1 7 1 (by decide)

end Ooz
